import Mathlib

/-!
Shallow embedding of the pyWikiRacer core (src/wikiracing.py, src/models.py).

The remote wiki API (an external collaborator reached through `requests`) is
modelled as a `Corpus`: for each title it either holds a raw ordered list of
outbound link titles, or nothing (the page is missing / the response carries
no `links` field).  The database (SQLAlchemy session over the `wikipage`
table) is modelled as a `List WikiPage` in insertion order; `session.query
(WikiPage).filter_by(title=...).first()` becomes `List.find?`, and
`session.add` + `commit` becomes appending to the list.  Python exceptions
become `Except`, and the dynamically-typed return value of `find_path`
(a message string after a handled `InvalidPageException`, or a list of
titles) becomes the sum type `PyResult`.
-/

/-- Constant `LINKS_PER_PAGE = 200` (wikiracing.py line 11), passed to the
API as `pllimit` / `bllimit`. -/
def LINKS_PER_PAGE : Nat := 200

/-- Constant `TITLE_RED_FLAGS = ['/', ':']` (wikiracing.py line 13): the
structural separator characters. -/
def TITLE_RED_FLAGS : List Char := ['/', ':']

/-- The remote wiki service, modelled at the interface the code uses.
`rawLinks t = none` models a `prop=links` response whose single page entry has
no `links` key (missing page or malformed/empty result, the `KeyError` path of
`_get_links`); `rawLinks t = some raw` models a page whose full outbound link
list is `raw`, of which the service returns at most `pllimit` entries.
`rawBacklinks t` is the full backlink list, of which the service returns at
most `bllimit` entries. -/
structure Corpus where
  rawLinks : String → Option (List String)
  rawBacklinks : String → List String

/-- A row of the `wikipage` table (models.py `WikiPage`): title plus the
array-valued `links` and `backlinks` columns. -/
structure WikiPage where
  title : String
  links : List String
  backlinks : List String
  deriving DecidableEq, Repr

/-- The exception `InvalidPageException` (wikiracing.py lines 16-21), carrying
the offending page title. -/
structure InvalidPageException where
  page_title : Option String
  deriving DecidableEq, Repr

/-- The message computed in `InvalidPageException.__init__`:
`f"Can't parse wikipedia page {self.page_title or 'this term'}."`.  Python's
`or` falls through to `'this term'` when `page_title` is `None` or the empty
string (both falsy). -/
def exc_message (page_title : Option String) : String :=
  let apos := String.singleton (Char.ofNat 39)
  let shown := match page_title with
    | none => "this term"
    | some t => if t = "" then "this term" else t
  "Can" ++ apos ++ "t parse wikipedia page " ++ shown ++ "."

/-- The dynamically-typed return value of `find_path`: a plain string (the
handled exception's message, line 150) or a list of titles (lines 152, 185). -/
inductive PyResult where
  | msg (s : String)
  | path (p : List String)
  deriving DecidableEq, Repr

/-- The per-entry filter of `_get_links` line 80:
`all([char not in TITLE_RED_FLAGS for char in entry['title']])` — keep a link
title only if none of its characters is a structural separator. -/
def title_has_no_red_flags (title : String) : Bool :=
  title.toList.all (fun char => !TITLE_RED_FLAGS.contains char)

/-- `WikiRacer._get_links` (wikiracing.py lines 53-81).  The service answers a
single-title `prop=links` query with one page entry; if that entry has no
`links` key the comprehension on line 77 raises `KeyError` and the code
returns `[]` (lines 78-79).  Otherwise the entry holds the first
`pllimit = LINKS_PER_PAGE` raw links (service-side truncation), and line 80
keeps the titles with no red-flag character. -/
def get_links (c : Corpus) (page : String) : List String :=
  match c.rawLinks page with
  | none => []
  | some raw =>
      let links := raw.take LINKS_PER_PAGE
      links.filter title_has_no_red_flags

/-- `WikiRacer._get_backlinks` (wikiracing.py lines 83-102): the service
returns at most `bllimit = LINKS_PER_PAGE` backlink entries and the code
collects their titles. -/
def get_backlinks (c : Corpus) (page : String) : List String :=
  (c.rawBacklinks page).take LINKS_PER_PAGE

/-- `WikiRacer._validate_page` (wikiracing.py lines 26-51):
`valid_title = not all([char in TITLE_RED_FLAGS for char in title])`, one
`_get_links` fetch, and `raise InvalidPageException` when
`not valid_title or not len(page_links)`; on success return
`(True, page_links)`. -/
def validate_page (c : Corpus) (title : String) :
    Except InvalidPageException (Bool × List String) :=
  let valid_title := !(title.toList.all (fun char => TITLE_RED_FLAGS.contains char))
  let page_links := get_links c title
  if !valid_title || page_links.length == 0 then
    .error ⟨some title⟩
  else
    .ok (true, page_links)

/-- Python's `list.insert(i, x)` (which clamps an out-of-range index), used as
`path.insert(1, page_title)` on line 141. -/
def list_insert (l : List α) (i : Nat) (x : α) : List α :=
  l.take i ++ x :: l.drop i

/-- `WikiRacer._page_leads_to_term` (wikiracing.py lines 123-142): if `term`
is among `links`, insert `page_title` at index 1 of `path` and report success.
The Python method mutates `path`; here the updated path is returned. -/
def page_leads_to_term (page_title : String) (links : List String)
    (term : String) (path : List String) : Bool × List String :=
  if links.contains term then
    (true, list_insert path 1 page_title)
  else
    (false, path)

/-- `WikiRacer._create_link_obj` (wikiracing.py lines 104-121): build a
`WikiPage` with freshly fetched backlinks, `session.add` + `commit` (append to
the store), and return the new object with the updated store. -/
def create_link_obj (c : Corpus) (title : String) (links : List String)
    (store : List WikiPage) : WikiPage × List WikiPage :=
  let page_obj : WikiPage := ⟨title, links, get_backlinks c title⟩
  (page_obj, store ++ [page_obj])

/-- One iteration of the `for link in start_page_links` body of `find_path`
(wikiracing.py lines 156-183): look the candidate up in the store; on a hit
test its cached links; on a miss validate it (an `InvalidPageException` is
swallowed by `continue`), persist a new record, and test the fresh links.
Returns `(path_found, path, store)`. -/
def process_link (c : Corpus) (finish link : String) (path : List String)
    (store : List WikiPage) : Bool × List String × List WikiPage :=
  match store.find? (fun p => p.title == link) with
  | some page_db_lookup =>
      let r := page_leads_to_term link page_db_lookup.links finish path
      (r.1, r.2, store)
  | none =>
      match validate_page c link with
      | .error _ => (false, path, store)
      | .ok (_, page_links) =>
          let r0 := create_link_obj c link page_links store
          let r := page_leads_to_term link page_links finish path
          (r.1, r.2, r0.2)

/-- The candidate loop of `find_path` (wikiracing.py lines 156-183): process
the candidates in provider order, breaking at the first match.  Returns
`(path, path_found, store)`. -/
def find_path_loop (c : Corpus) (finish : String) :
    List String → List String → List WikiPage →
    List String × Bool × List WikiPage
  | [], path, store => (path, false, store)
  | link :: rest, path, store =>
      let r := process_link c finish link path store
      if r.1 then (r.2.1, true, r.2.2)
      else find_path_loop c finish rest r.2.1 r.2.2

/-- `WikiRacer.find_path` (wikiracing.py lines 144-185): validate `start` and
`finish` (a failure is caught and the exception's message string is returned,
line 150), then run the candidate loop over the start page's links starting
from `path = [start, finish]`, and return `path` if found, else `[]`.  The
persistent store is threaded explicitly and returned alongside the result. -/
def find_path (c : Corpus) (store : List WikiPage) (start finish : String) :
    PyResult × List WikiPage :=
  match validate_page c start with
  | .error e => (.msg (exc_message e.page_title), store)
  | .ok (_, start_page_links) =>
    match validate_page c finish with
    | .error e => (.msg (exc_message e.page_title), store)
    | .ok _ =>
      let r := find_path_loop c finish start_page_links [start, finish] store
      (if r.2.1 then .path r.1 else .path [], r.2.2)

/-! ## Helper predicates used to state and prove properties of the search -/

/-- Whether an `Except` computation succeeded. -/
def except_ok : Except ε α → Bool
  | .ok _ => true
  | .error _ => false

/-- A record shaped like those `find_path` inserts: its title validated
successfully and its stored links are exactly the validated (fetched) links
of that title. -/
def inserted_ok (c : Corpus) (q : WikiPage) : Prop :=
  validate_page c q.title = .ok (true, q.links)

/-- The link set `find_path` consults for a candidate against a given store:
the cached links on a store hit, the freshly fetched links otherwise. -/
def effective_links (c : Corpus) (store : List WikiPage) (link : String) :
    List String :=
  match store.find? (fun p => p.title == link) with
  | some q => q.links
  | none => get_links c link

/-- Whether a candidate makes the loop of `find_path` declare a match against
a given store: on a store hit the cached links must contain `finish`; on a
miss the candidate must validate successfully and its fetched links must
contain `finish`. -/
def link_connects (c : Corpus) (store : List WikiPage) (finish link : String) :
    Bool :=
  match store.find? (fun p => p.title == link) with
  | some q => q.links.contains finish
  | none => except_ok (validate_page c link) && (get_links c link).contains finish

/-- A stored record is substantive: non-empty links and a title that is not
made solely of structural separator characters. -/
def record_valid (q : WikiPage) : Bool :=
  !q.links.isEmpty &&
    !(q.title.toList.all (fun char => TITLE_RED_FLAGS.contains char))

/-! ## Concrete corpora for witnesses and counterexamples -/

/-- A small corpus: page `A` links to the empty-titled page, `B` and `C`;
page `D` links to the empty-titled page and `B`; the empty-titled page and
`B` both link to `F`; `C` links only to the unknown page `Z`. -/
def wiki_small : Corpus where
  rawLinks := fun t =>
    if t = "A" then some ["", "B", "C"]
    else if t = "D" then some ["", "B"]
    else if t = "" then some ["F"]
    else if t = "B" then some ["F"]
    else if t = "C" then some ["Z"]
    else if t = "F" then some ["A"]
    else none
  rawBacklinks := fun _ => []

/-- The store produced by running `find_path wiki_small [] "A" "F"`. -/
def wiki_small_store1 : List WikiPage := [⟨"B", ["F"], []⟩]

/-- A corpus whose every response lacks the `links` field (a provider fault /
missing page). -/
def corpus_links_missing : Corpus where
  rawLinks := fun _ => none
  rawBacklinks := fun _ => []

/-- A corpus in which page `X` exists but has zero outbound links. -/
def corpus_links_empty : Corpus where
  rawLinks := fun t => if t = "X" then some [] else none
  rawBacklinks := fun _ => []

/-- A corpus in which page `P` has 201 outbound links, the first of which
contains a structural separator character. -/
def corpus_over_limit : Corpus where
  rawLinks := fun t =>
    if t = "P" then some (":a" :: List.replicate 200 "L") else none
  rawBacklinks := fun _ => []

/-- A corpus in which page `Q` has 201 outbound links, none containing a
structural separator character. -/
def corpus_over_limit_clean : Corpus where
  rawLinks := fun t => if t = "Q" then some (List.replicate 201 "L") else none
  rawBacklinks := fun _ => []

/-! ## Inversion lemmas for the validator -/

lemma validate_page_ok_inv {c : Corpus} {t : String} {b : Bool}
    {ls : List String} (h : validate_page c t = .ok (b, ls)) :
    b = true ∧ ls = get_links c t ∧
    (t.toList.all (fun char => TITLE_RED_FLAGS.contains char)) = false ∧
    get_links c t ≠ [] := by
  simp only [validate_page] at h
  split at h
  · cases h
  · next hcond =>
    simp only [Bool.not_not, Bool.or_eq_true, not_or, beq_iff_eq,
      Bool.not_eq_true] at hcond
    obtain ⟨h1, h2⟩ := hcond
    injection h with h
    injection h with hb hls
    refine ⟨hb.symm, hls.symm, h1, ?_⟩
    intro hnil
    exact h2 (by simp [hnil])

lemma validate_page_error_iff {c : Corpus} {t : String} :
    (∃ e, validate_page c t = .error e) ↔
      ((t.toList.all (fun char => TITLE_RED_FLAGS.contains char)) = true ∨
        get_links c t = []) := by
  constructor
  · rintro ⟨e, he⟩
    by_contra hno
    push_neg at hno
    obtain ⟨h1, h2⟩ := hno
    simp only [validate_page] at he
    split at he
    · next hcond =>
      simp only [Bool.not_not, Bool.or_eq_true, beq_iff_eq,
        Bool.not_eq_true] at hcond
      rcases hcond with hc | hc
      · exact h1 hc
      · exact h2 (List.length_eq_zero.mp hc)
    · cases he
  · intro h
    refine ⟨⟨some t⟩, ?_⟩
    simp only [validate_page]
    split
    · rfl
    · next hcond =>
      simp only [Bool.not_not, Bool.or_eq_true, beq_iff_eq,
        Bool.not_eq_true] at hcond
      rcases h with h | h
      · exact absurd (Or.inl h) hcond
      · exact absurd (Or.inr (by simp [h])) hcond

lemma validate_page_ok_of_valid {c : Corpus} {t : String}
    (h1 : (t.toList.all (fun char => TITLE_RED_FLAGS.contains char)) = false)
    (h2 : get_links c t ≠ []) :
    validate_page c t = .ok (true, get_links c t) := by
  simp only [validate_page]
  split
  · next hcond =>
    simp only [Bool.not_not, Bool.or_eq_true, beq_iff_eq] at hcond
    rcases hcond with hc | hc
    · rw [h1] at hc; cases hc
    · exact absurd (List.length_eq_zero.mp hc) h2
  · rfl

lemma inserted_ok_inv {c : Corpus} {q : WikiPage} (h : inserted_ok c q) :
    q.links = get_links c q.title ∧
    (q.title.toList.all (fun char => TITLE_RED_FLAGS.contains char)) = false ∧
    q.links ≠ [] := by
  obtain ⟨-, h2, h3, h4⟩ := validate_page_ok_inv h
  exact ⟨h2, h3, h2 ▸ h4⟩

/-! ## Step lemmas about one loop iteration -/

lemma page_leads_to_term_fst {pt t : String} {ls p : List String} :
    (page_leads_to_term pt ls t p).1 = ls.contains t := by
  unfold page_leads_to_term
  split <;> simp_all

lemma page_leads_to_term_snd_neg {pt t : String} {ls p : List String}
    (h : ls.contains t = false) :
    (page_leads_to_term pt ls t p).2 = p := by
  unfold page_leads_to_term
  split <;> simp_all

lemma page_leads_to_term_snd_pos {pt t : String} {ls p : List String}
    (h : ls.contains t = true) :
    (page_leads_to_term pt ls t p).2 = list_insert p 1 pt := by
  unfold page_leads_to_term
  split <;> simp_all

lemma process_link_hit {c : Corpus} {finish link : String}
    {path : List String} {store : List WikiPage} {q : WikiPage}
    (h : store.find? (fun p => p.title == link) = some q) :
    process_link c finish link path store =
      (q.links.contains finish, (page_leads_to_term link q.links finish path).2,
        store) := by
  simp [process_link, h, page_leads_to_term_fst]

lemma process_link_miss_invalid {c : Corpus} {finish link : String}
    {path : List String} {store : List WikiPage} {e : InvalidPageException}
    (h1 : store.find? (fun p => p.title == link) = none)
    (h2 : validate_page c link = .error e) :
    process_link c finish link path store = (false, path, store) := by
  simp [process_link, h1, h2]

lemma process_link_miss_valid {c : Corpus} {finish link : String}
    {path : List String} {store : List WikiPage} {b : Bool}
    {pl : List String}
    (h1 : store.find? (fun p => p.title == link) = none)
    (h2 : validate_page c link = .ok (b, pl)) :
    process_link c finish link path store =
      (pl.contains finish, (page_leads_to_term link pl finish path).2,
        store ++ [⟨link, pl, get_backlinks c link⟩]) := by
  simp [process_link, h1, h2, create_link_obj, page_leads_to_term_fst]

lemma find?_append_of_some {store : List WikiPage} (extra : List WikiPage)
    {pred : WikiPage → Bool} {q : WikiPage}
    (h : store.find? pred = some q) :
    (store ++ extra).find? pred = some q := by
  rw [List.find?_append, h]; rfl

lemma find?_append_of_none {store : List WikiPage} (extra : List WikiPage)
    {pred : WikiPage → Bool}
    (h : store.find? pred = none) :
    (store ++ extra).find? pred = extra.find? pred := by
  rw [List.find?_append, h]; rfl

lemma find?_title_eq {store : List WikiPage} {link : String} {q : WikiPage}
    (h : store.find? (fun p => p.title == link) = some q) :
    q.title = link := by
  have := List.find?_some h
  simpa using this

lemma link_connects_hit {c : Corpus} {store : List WikiPage}
    {finish link : String} {q : WikiPage}
    (h : store.find? (fun p => p.title == link) = some q) :
    link_connects c store finish link = q.links.contains finish := by
  simp [link_connects, h]

lemma link_connects_miss {c : Corpus} {store : List WikiPage}
    {finish link : String}
    (h : store.find? (fun p => p.title == link) = none) :
    link_connects c store finish link =
      (except_ok (validate_page c link) && (get_links c link).contains finish) := by
  simp [link_connects, h]

/-- Processing a candidate that does not connect (relative to the base store)
over a cleanly extended store: no match, the path is untouched, and the store
is again a clean extension of the base. -/
lemma process_link_connects_false {c : Corpus} {finish link : String}
    (path : List String) {store0 extra : List WikiPage}
    (hclean : ∀ q ∈ extra, inserted_ok c q)
    (hconn : link_connects c store0 finish link = false) :
    ∃ extra', process_link c finish link path (store0 ++ extra) =
        (false, path, store0 ++ extra') ∧ ∀ q ∈ extra', inserted_ok c q := by
  cases h0 : store0.find? (fun p => p.title == link) with
  | some q =>
      have hq : q.links.contains finish = false := by
        rw [link_connects_hit h0] at hconn; exact hconn
      refine ⟨extra, ?_, hclean⟩
      rw [process_link_hit (find?_append_of_some _ h0), hq,
        page_leads_to_term_snd_neg hq]
  | none =>
      rw [link_connects_miss h0] at hconn
      have hfind := find?_append_of_none extra h0
      cases hx : extra.find? (fun p => p.title == link) with
      | some q =>
          have htitle : q.title = link := find?_title_eq hx
          have hio := hclean q (List.mem_of_find?_eq_some hx)
          obtain ⟨hlinks, -, -⟩ := inserted_ok_inv hio
          have hokb : except_ok (validate_page c link) = true := by
            have := hio
            unfold inserted_ok at this
            rw [htitle] at this
            rw [this]; rfl
          have hcont : (get_links c link).contains finish = false := by
            rw [hokb, Bool.true_and] at hconn; exact hconn
          have hql : q.links.contains finish = false := by
            rw [hlinks, htitle]; exact hcont
          refine ⟨extra, ?_, hclean⟩
          rw [process_link_hit (hfind.trans hx), hql,
            page_leads_to_term_snd_neg hql]
      | none =>
          have hfind2 : (store0 ++ extra).find? (fun p => p.title == link) = none :=
            hfind.trans hx
          cases hv : validate_page c link with
          | error e =>
              exact ⟨extra, process_link_miss_invalid hfind2 hv, hclean⟩
          | ok bp =>
              obtain ⟨b, pl⟩ := bp
              have hokb : except_ok (validate_page c link) = true := by
                rw [hv]; rfl
              obtain ⟨hb, hpl, -, -⟩ := validate_page_ok_inv hv
              have hcont : pl.contains finish = false := by
                rw [hokb, Bool.true_and] at hconn
                rw [hpl]; exact hconn
              refine ⟨extra ++ [⟨link, pl, get_backlinks c link⟩], ?_, ?_⟩
              · rw [process_link_miss_valid hfind2 hv, hcont,
                  page_leads_to_term_snd_neg hcont, List.append_assoc]
              · intro q hq
                rcases List.mem_append.mp hq with hq | hq
                · exact hclean q hq
                · rcases List.mem_singleton.mp hq with rfl
                  show validate_page c link = .ok (true, pl)
                  rw [hv, hb]

/-- Processing a candidate that connects (relative to the base store) over a
cleanly extended store: the loop reports a match, splices the candidate into
the path at index 1, and the resulting store holds a record for it. -/
lemma process_link_connects_true {c : Corpus} {finish link : String}
    (path : List String) {store0 extra : List WikiPage}
    (hclean : ∀ q ∈ extra, inserted_ok c q)
    (hconn : link_connects c store0 finish link = true) :
    ∃ store', process_link c finish link path (store0 ++ extra) =
        (true, list_insert path 1 link, store') ∧
        ∃ q ∈ store', q.title = link := by
  cases h0 : store0.find? (fun p => p.title == link) with
  | some q =>
      have hq : q.links.contains finish = true := by
        rw [link_connects_hit h0] at hconn; exact hconn
      have hfind := find?_append_of_some extra h0
      refine ⟨store0 ++ extra, ?_, q, ?_, find?_title_eq h0⟩
      · rw [process_link_hit hfind, hq, page_leads_to_term_snd_pos hq]
      · exact List.mem_append_left _ (List.mem_of_find?_eq_some h0)
  | none =>
      rw [link_connects_miss h0] at hconn
      have hfind := find?_append_of_none extra h0
      cases hx : extra.find? (fun p => p.title == link) with
      | some q =>
          have htitle : q.title = link := find?_title_eq hx
          have hio := hclean q (List.mem_of_find?_eq_some hx)
          obtain ⟨hlinks, -, -⟩ := inserted_ok_inv hio
          have hokb : except_ok (validate_page c link) = true := by
            have := hio
            unfold inserted_ok at this
            rw [htitle] at this
            rw [this]; rfl
          have hcont : (get_links c link).contains finish = true := by
            rw [hokb, Bool.true_and] at hconn; exact hconn
          have hql : q.links.contains finish = true := by
            rw [hlinks, htitle]; exact hcont
          refine ⟨store0 ++ extra, ?_, q, ?_, htitle⟩
          · rw [process_link_hit (hfind.trans hx), hql,
              page_leads_to_term_snd_pos hql]
          · exact List.mem_append_right _ (List.mem_of_find?_eq_some hx)
      | none =>
          have hfind2 : (store0 ++ extra).find? (fun p => p.title == link) = none :=
            hfind.trans hx
          cases hv : validate_page c link with
          | error e =>
              exfalso
              have : except_ok (validate_page c link) = false := by
                rw [hv]; rfl
              rw [this, Bool.false_and] at hconn
              cases hconn
          | ok bp =>
              obtain ⟨b, pl⟩ := bp
              have hokb : except_ok (validate_page c link) = true := by
                rw [hv]; rfl
              obtain ⟨hb, hpl, -, -⟩ := validate_page_ok_inv hv
              have hcont : pl.contains finish = true := by
                rw [hokb, Bool.true_and] at hconn
                rw [hpl]; exact hconn
              refine ⟨store0 ++ extra ++ [⟨link, pl, get_backlinks c link⟩], ?_,
                ⟨link, pl, get_backlinks c link⟩, ?_, rfl⟩
              · rw [process_link_miss_valid hfind2 hv, hcont,
                  page_leads_to_term_snd_pos hcont]
              · simp

/-! ## Loop-level lemmas -/

/-- Running the loop over candidates none of which connects (relative to the
base store) leaves the path untouched, reports no match, and only appends
clean records to the store. -/
lemma find_path_loop_no_match {c : Corpus} {finish : String} :
    ∀ (links path : List String) (store0 extra : List WikiPage),
      (∀ q ∈ extra, inserted_ok c q) →
      (∀ l ∈ links, link_connects c store0 finish l = false) →
      ∃ extra', find_path_loop c finish links path (store0 ++ extra) =
          (path, false, store0 ++ extra') ∧ ∀ q ∈ extra', inserted_ok c q := by
  intro links
  induction links with
  | nil =>
      intro path store0 extra hclean _
      exact ⟨extra, by simp [find_path_loop], hclean⟩
  | cons link rest ih =>
      intro path store0 extra hclean hconn
      obtain ⟨extra1, hproc, hclean1⟩ :=
        process_link_connects_false path hclean
          (hconn link (List.mem_cons_self link rest))
      obtain ⟨extra2, hloop, hclean2⟩ := ih path store0 extra1 hclean1
        (fun l hl => hconn l (List.mem_cons_of_mem link hl))
      exact ⟨extra2, by simp [find_path_loop, hproc, hloop], hclean2⟩

/-- First match wins: if no candidate before `cand` connects (relative to the
base store) and `cand` does, the loop stops at `cand`, splices it into the
path at index 1, and the final store holds a record titled `cand`. -/
lemma find_path_loop_first_match {c : Corpus} {finish : String} :
    ∀ (pre path : List String) (store0 extra : List WikiPage)
      (cand : String) (post : List String),
      (∀ q ∈ extra, inserted_ok c q) →
      (∀ l ∈ pre, link_connects c store0 finish l = false) →
      link_connects c store0 finish cand = true →
      ∃ store', find_path_loop c finish (pre ++ cand :: post) path
          (store0 ++ extra) = (list_insert path 1 cand, true, store') ∧
          ∃ q ∈ store', q.title = cand := by
  intro pre
  induction pre with
  | nil =>
      intro path store0 extra cand post hclean _ hcand
      obtain ⟨store', hproc, hq⟩ :=
        process_link_connects_true path hclean hcand
      exact ⟨store', by simp [find_path_loop, hproc], hq⟩
  | cons link rest ih =>
      intro path store0 extra cand post hclean hpre hcand
      obtain ⟨extra1, hproc, hclean1⟩ :=
        process_link_connects_false path hclean
          (hpre link (List.mem_cons_self link rest))
      obtain ⟨store', hloop, hq⟩ := ih path store0 extra1 cand post hclean1
        (fun l hl => hpre l (List.mem_cons_of_mem link hl)) hcand
      exact ⟨store', by simp [find_path_loop, hproc, hloop], hq⟩

/-- One iteration only ever appends clean records to the store, and leaves
the path untouched unless it reports a match. -/
lemma process_link_store_extends (c : Corpus) (finish link : String)
    (path : List String) (store : List WikiPage) :
    ∃ extra, (process_link c finish link path store).2.2 = store ++ extra ∧
      (∀ q ∈ extra, inserted_ok c q) ∧
      ((process_link c finish link path store).1 = false →
        (process_link c finish link path store).2.1 = path) := by
  cases h0 : store.find? (fun p => p.title == link) with
  | some q =>
      rw [process_link_hit h0]
      refine ⟨[], by simp, by simp, ?_⟩
      intro hf
      simp only at hf
      rw [page_leads_to_term_snd_neg hf]
  | none =>
      cases hv : validate_page c link with
      | error e =>
          rw [process_link_miss_invalid h0 hv]
          exact ⟨[], by simp, by simp, fun _ => rfl⟩
      | ok bp =>
          obtain ⟨b, pl⟩ := bp
          obtain ⟨hb, -, -, -⟩ := validate_page_ok_inv hv
          rw [process_link_miss_valid h0 hv]
          refine ⟨[⟨link, pl, get_backlinks c link⟩], by simp, ?_, ?_⟩
          · intro q hq
            rcases List.mem_singleton.mp hq with rfl
            show validate_page c link = .ok (true, pl)
            rw [hv, hb]
          · intro hf
            simp only at hf
            rw [page_leads_to_term_snd_neg hf]

/-- The loop only ever appends clean records to the store. -/
lemma find_path_loop_store_extends (c : Corpus) (finish : String) :
    ∀ (links path : List String) (store : List WikiPage),
      ∃ extra, (find_path_loop c finish links path store).2.2 =
          store ++ extra ∧ ∀ q ∈ extra, inserted_ok c q := by
  intro links
  induction links with
  | nil =>
      intro path store
      exact ⟨[], by simp [find_path_loop], by simp⟩
  | cons link rest ih =>
      intro path store
      obtain ⟨extra1, hst, hclean1, hpath⟩ :=
        process_link_store_extends c finish link path store
      rcases hproc : process_link c finish link path store with ⟨f, p', s'⟩
      rw [hproc] at hst
      simp only at hst
      cases f with
      | true =>
          refine ⟨extra1, ?_, hclean1⟩
          simp [find_path_loop, hproc, hst]
      | false =>
          obtain ⟨extra2, hst2, hclean2⟩ := ih p' s'
          refine ⟨extra1 ++ extra2, ?_, ?_⟩
          · simp only [find_path_loop, hproc]
            simp only [Bool.false_eq_true, if_false]
            rw [hst2, hst, List.append_assoc]
          · intro q hq
            rcases List.mem_append.mp hq with hq | hq
            · exact hclean1 q hq
            · exact hclean2 q hq

/-! ## Idempotence of the search over its own store output -/

lemma find?_singleton_self {link : String} {pl bl : List String} :
    ([(⟨link, pl, bl⟩ : WikiPage)]).find?
      (fun p => p.title == link) = some ⟨link, pl, bl⟩ := by
  simp [List.find?]

/-- A matching iteration inserts the candidate into the path at index 1 and
leaves a record for it in the store. -/
lemma process_link_found {c : Corpus} {finish link : String}
    {path p' : List String} {store s' : List WikiPage}
    (h : process_link c finish link path store = (true, p', s')) :
    p' = list_insert path 1 link ∧ ∃ q ∈ s', q.title = link := by
  cases h0 : store.find? (fun p => p.title == link) with
  | some q =>
      rw [process_link_hit h0] at h
      injection h with h1 h
      injection h with h2 h3
      have hq : q.links.contains finish = true := h1
      subst h3
      exact ⟨by rw [← h2, page_leads_to_term_snd_pos hq], q,
        List.mem_of_find?_eq_some h0, find?_title_eq h0⟩
  | none =>
      cases hv : validate_page c link with
      | error e =>
          rw [process_link_miss_invalid h0 hv] at h
          cases h
      | ok bp =>
          obtain ⟨b, pl⟩ := bp
          rw [process_link_miss_valid h0 hv] at h
          injection h with h1 h
          injection h with h2 h3
          have hc : pl.contains finish = true := h1
          subst h3
          exact ⟨by rw [← h2, page_leads_to_term_snd_pos hc],
            ⟨link, pl, get_backlinks c link⟩, by simp, rfl⟩

/-- Re-running a matching iteration on the store it produced gives the same
outcome (the inserted record is now a cache hit with the same links). -/
lemma process_link_idem_found {c : Corpus} {finish link : String}
    {path p' : List String} {store s' : List WikiPage}
    (h : process_link c finish link path store = (true, p', s')) :
    process_link c finish link path s' = (true, p', s') := by
  cases h0 : store.find? (fun p => p.title == link) with
  | some q =>
      rw [process_link_hit h0] at h
      injection h with h1 h
      injection h with h2 h3
      have hq : q.links.contains finish = true := h1
      subst h3
      rw [process_link_hit h0, hq, h2]
  | none =>
      cases hv : validate_page c link with
      | error e =>
          rw [process_link_miss_invalid h0 hv] at h
          cases h
      | ok bp =>
          obtain ⟨b, pl⟩ := bp
          rw [process_link_miss_valid h0 hv] at h
          injection h with h1 h
          injection h with h2 h3
          have hc : pl.contains finish = true := h1
          subst h3
          have hfind : (store ++ [(⟨link, pl, get_backlinks c link⟩ : WikiPage)]).find?
              (fun p => p.title == link) = some ⟨link, pl, get_backlinks c link⟩ :=
            (find?_append_of_none _ h0).trans find?_singleton_self
          rw [process_link_hit hfind]
          simp only [hc]
          rw [h2]

/-- Re-running a non-matching iteration on any clean extension of the store
it produced again does not match, and changes nothing. -/
lemma process_link_idem_notfound {c : Corpus} {finish link : String}
    {path p' : List String} {store s' : List WikiPage}
    (h : process_link c finish link path store = (false, p', s'))
    (extra : List WikiPage) (hclean : ∀ q ∈ extra, inserted_ok c q) :
    p' = path ∧
    process_link c finish link path (s' ++ extra) = (false, path, s' ++ extra) := by
  cases h0 : store.find? (fun p => p.title == link) with
  | some q =>
      rw [process_link_hit h0] at h
      injection h with h1 h
      injection h with h2 h3
      have hq : q.links.contains finish = false := h1
      subst h3
      have hp : p' = path := by rw [← h2, page_leads_to_term_snd_neg hq]
      refine ⟨hp, ?_⟩
      rw [process_link_hit (find?_append_of_some _ h0), hq,
        page_leads_to_term_snd_neg hq]
  | none =>
      cases hv : validate_page c link with
      | error e =>
          rw [process_link_miss_invalid h0 hv] at h
          injection h with h1 h
          injection h with h2 h3
          subst h3
          refine ⟨h2.symm, ?_⟩
          have hnone : (store ++ extra).find? (fun p => p.title == link) = none := by
            rw [find?_append_of_none _ h0]
            rw [List.find?_eq_none]
            intro q hq hbeq
            have htitle : q.title = link := by simpa using hbeq
            have := hclean q hq
            unfold inserted_ok at this
            rw [htitle, hv] at this
            cases this
          rw [process_link_miss_invalid hnone hv, h2]
      | ok bp =>
          obtain ⟨b, pl⟩ := bp
          rw [process_link_miss_valid h0 hv] at h
          injection h with h1 h
          injection h with h2 h3
          have hc : pl.contains finish = false := h1
          have hp : p' = path := by rw [← h2, page_leads_to_term_snd_neg hc]
          refine ⟨hp, ?_⟩
          have hfind : (s' ++ extra).find? (fun p => p.title == link) =
              some ⟨link, pl, get_backlinks c link⟩ := by
            rw [← h3]
            rw [List.append_assoc]
            exact (find?_append_of_none _ h0).trans
              (find?_append_of_some _ find?_singleton_self)
          rw [process_link_hit hfind]
          simp only [hc]
          rw [page_leads_to_term_snd_neg hc]

/-- A successful loop run spliced some candidate into the path at index 1,
and the final store holds a record for that candidate. -/
lemma find_path_loop_found_record {c : Corpus} {finish : String} :
    ∀ {links path p1 : List String} {store s1 : List WikiPage},
      find_path_loop c finish links path store = (p1, true, s1) →
      ∃ l, p1 = list_insert path 1 l ∧ ∃ q ∈ s1, q.title = l := by
  intro links
  induction links with
  | nil =>
      intro path p1 store s1 h
      simp [find_path_loop] at h
  | cons link rest ih =>
      intro path p1 store s1 h
      rcases hproc : process_link c finish link path store with ⟨f, p', s'⟩
      simp only [find_path_loop, hproc] at h
      cases f with
      | true =>
          simp only [if_true] at h
          injection h with e1 h
          injection h with e2 e3
          subst e1; subst e3
          obtain ⟨hp, hq⟩ := process_link_found hproc
          exact ⟨link, hp, hq⟩
      | false =>
          simp only [Bool.false_eq_true, if_false] at h
          obtain ⟨hp', -⟩ := process_link_idem_notfound hproc [] (by simp)
          rw [hp'] at h
          exact ih h

/-- Re-running the candidate loop on the store it produced changes nothing
and returns the same result. -/
lemma find_path_loop_idem {c : Corpus} {finish : String} :
    ∀ {links path p1 : List String} {f1 : Bool} {store s1 : List WikiPage},
      find_path_loop c finish links path store = (p1, f1, s1) →
      find_path_loop c finish links path s1 = (p1, f1, s1) := by
  intro links
  induction links with
  | nil =>
      intro path p1 f1 store s1 h
      simp only [find_path_loop] at h ⊢
      injection h with e1 h
      injection h with e2 e3
      subst e1; subst e3
      rw [← e2]
  | cons link rest ih =>
      intro path p1 f1 store s1 h
      rcases hproc : process_link c finish link path store with ⟨f, p', s'⟩
      simp only [find_path_loop, hproc] at h
      cases f with
      | true =>
          simp only [if_true] at h
          injection h with e1 h
          injection h with e2 e3
          subst e1; subst e2; subst e3
          have hid := process_link_idem_found hproc
          simp [find_path_loop, hid]
      | false =>
          simp only [Bool.false_eq_true, if_false] at h
          obtain ⟨extra, hs1, hclean⟩ :=
            find_path_loop_store_extends c finish rest p' s'
          rw [h] at hs1
          simp only at hs1
          obtain ⟨hp', hre⟩ := process_link_idem_notfound hproc extra hclean
          subst hp'
          rw [← hs1] at hre
          simp only [find_path_loop, hre, Bool.false_eq_true, if_false]
          exact ih h

/-! ## Claim theorems -/

/-- C4: `validate(title)` fails with `InvalidPage` if and only if every
character of the title is a structural separator character (so also for the
empty title), or the fetched link list is empty; otherwise it returns the
fetched links.  A title merely containing a separator among other characters
is not invalidated by the character rule, since the rule quantifies over all
characters. -/
theorem validate_page_invalid_iff (c : Corpus) (t : String) :
    ((∃ e, validate_page c t = .error e) ↔
      ((t.toList.all (fun char => TITLE_RED_FLAGS.contains char)) = true ∨
        get_links c t = [])) ∧
    (¬(((t.toList.all (fun char => TITLE_RED_FLAGS.contains char)) = true) ∨
        get_links c t = []) →
      validate_page c t = .ok (true, get_links c t)) := by
  refine ⟨validate_page_error_iff, ?_⟩
  intro h
  push_neg at h
  obtain ⟨h1, h2⟩ := h
  have h1' : (t.toList.all (fun char => TITLE_RED_FLAGS.contains char)) = false := by
    revert h1
    cases t.toList.all (fun char => TITLE_RED_FLAGS.contains char) <;> simp
  exact validate_page_ok_of_valid h1' h2

/-- Witness for C4 at a concrete input: the page `B` of `wiki_small` is
judged valid and validation returns its fetched links. -/
theorem validate_page_invalid_iff_witness :
    validate_page wiki_small "B" = .ok (true, get_links wiki_small "B") :=
  (validate_page_invalid_iff wiki_small "B").2 (by decide)

/-- C10: the empty title always fails validation with `InvalidPage`,
whatever link list the provider would return for it: `all` over an empty
title holds vacuously, so `valid_title` is false before the link list is
even inspected. -/
theorem validate_page_empty_title_invalid (c : Corpus) :
    validate_page c "" = .error ⟨some ""⟩ := rfl

/-- C5 counterexample: a response with no `links` field (a provider fault /
missing page) and a genuine zero-link page produce the very same `get_links`
result `[]`, and the very same `InvalidPage` outcome downstream — the fault
does not propagate as a distinct condition. -/
theorem get_links_fault_conflation_cex :
    corpus_links_missing.rawLinks "X" = none ∧
    corpus_links_empty.rawLinks "X" = some [] ∧
    get_links corpus_links_missing "X" = [] ∧
    get_links corpus_links_empty "X" = [] ∧
    validate_page corpus_links_missing "X" = validate_page corpus_links_empty "X" := by
  refine ⟨rfl, by decide, rfl, by decide, rfl⟩

/-- C5 amended: whenever the response carries no `links` field, `get_links`
returns `[]` — the same value as for a zero-link page — and validation then
fails with `InvalidPage`; the unpacking-step fault is coerced into the
empty-list / `InvalidPage` outcome rather than propagating distinctly. -/
theorem get_links_fault_coerced_empty (c : Corpus) (t : String)
    (h : c.rawLinks t = none) :
    get_links c t = [] ∧ ∃ e, validate_page c t = .error e := by
  have hg : get_links c t = [] := by simp [get_links, h]
  exact ⟨hg, validate_page_error_iff.mpr (Or.inr hg)⟩

/-- Witness for the amended C5 at a concrete input. -/
theorem get_links_fault_coerced_empty_witness :
    get_links corpus_links_missing "X" = [] :=
  (get_links_fault_coerced_empty corpus_links_missing "X" rfl).1

set_option maxRecDepth 4000 in
/-- C6 counterexample: page `P` has 201 outbound links (more than the
configured limit of 200), yet `get_links` returns 199 titles, not exactly
200 — the separator filter runs after the service-side truncation, so a
red-flagged title among the first 200 shrinks the result below the limit. -/
theorem get_links_limit_cex :
    corpus_over_limit.rawLinks "P" = some (":a" :: List.replicate 200 "L") ∧
    LINKS_PER_PAGE < (":a" :: List.replicate 200 "L").length ∧
    (get_links corpus_over_limit "P").length = 199 ∧
    (get_links corpus_over_limit "P").length ≠ LINKS_PER_PAGE := by
  refine ⟨rfl, by decide, by decide, by decide⟩

/-- C6 amended: for a page with more outbound links than the configured
limit, `get_links` returns exactly `limit` titles provided none of the first
`limit` raw links contains a structural separator character; in general the
result is the first `limit` raw links with separator-containing titles
removed, so it can be shorter than `limit`. -/
theorem get_links_limit_exact_of_clean_prefix (c : Corpus) (page : String)
    (raw : List String) (h : c.rawLinks page = some raw)
    (hlen : LINKS_PER_PAGE < raw.length)
    (hclean : ∀ t ∈ raw.take LINKS_PER_PAGE, title_has_no_red_flags t = true) :
    (get_links c page).length = LINKS_PER_PAGE := by
  simp only [get_links, h]
  rw [List.filter_eq_self.mpr hclean, List.length_take]
  exact Nat.min_eq_left (Nat.le_of_lt hlen)

set_option maxRecDepth 4000 in
/-- Witness for the amended C6 at a concrete input: 201 clean raw links give
exactly 200 titles. -/
theorem get_links_limit_exact_of_clean_prefix_witness :
    (get_links corpus_over_limit_clean "Q").length = LINKS_PER_PAGE :=
  get_links_limit_exact_of_clean_prefix corpus_over_limit_clean "Q"
    (List.replicate 201 "L") rfl (by decide) (by decide)

/-- C2: if validation of `start` or of `finish` fails, `find_path` terminates
in the message-string outcome — by construction distinct from any list-valued
outcome (found path or empty result), so no sequence mixing valid titles with
a partial path is ever returned. -/
theorem find_path_invalid_outcome (c : Corpus) (store : List WikiPage)
    (start finish : String)
    (h : (∃ e, validate_page c start = .error e) ∨
      (∃ e, validate_page c finish = .error e)) :
    (∃ s, (find_path c store start finish).1 = PyResult.msg s) ∧
    ∀ p, (find_path c store start finish).1 ≠ PyResult.path p := by
  have hmsg : ∃ s, (find_path c store start finish).1 = PyResult.msg s := by
    rcases h with ⟨e, he⟩ | ⟨e, he⟩
    · exact ⟨exc_message e.page_title, by simp [find_path, he]⟩
    · cases hv : validate_page c start with
      | error e2 =>
          exact ⟨exc_message e2.page_title, by simp [find_path, hv]⟩
      | ok bp =>
          obtain ⟨b, ls⟩ := bp
          exact ⟨exc_message e.page_title, by simp [find_path, hv, he]⟩
  obtain ⟨s, hs⟩ := hmsg
  refine ⟨⟨s, hs⟩, fun p hp => ?_⟩
  rw [hs] at hp
  cases hp

/-- Witness for C2 at a concrete input: with the invalid start `GIB`, the
result is not the would-be path sequence. -/
theorem find_path_invalid_outcome_witness :
    (find_path wiki_small [] "GIB" "F").1 ≠ PyResult.path ["GIB", "F"] :=
  (find_path_invalid_outcome wiki_small [] "GIB" "F"
    (Or.inl ⟨⟨some "GIB"⟩, rfl⟩)).2 ["GIB", "F"]

/-- C3: for valid `start` and `finish`, if no link of the start page's links
has `finish` in its link set (cached links on a store hit, freshly fetched
links otherwise), `find_path` returns the empty sequence — the defined
no-path-found outcome — and, being a total function here, no exception
escapes the call. -/
theorem find_path_not_found_empty (c : Corpus) (store0 : List WikiPage)
    (start finish : String) (startLinks : List String)
    (hs : validate_page c start = .ok (true, startLinks))
    (hf : ∃ r, validate_page c finish = .ok r)
    (hnone : ∀ l ∈ startLinks, finish ∉ effective_links c store0 l) :
    (find_path c store0 start finish).1 = PyResult.path [] := by
  obtain ⟨r, hfr⟩ := hf
  have hconn : ∀ l ∈ startLinks, link_connects c store0 finish l = false := by
    intro l hl
    have hne := hnone l hl
    unfold effective_links at hne
    cases h0 : store0.find? (fun p => p.title == l) with
    | some q =>
        rw [h0] at hne
        rw [link_connects_hit h0]
        simpa using hne
    | none =>
        rw [h0] at hne
        rw [link_connects_miss h0]
        have : (get_links c l).contains finish = false := by simpa using hne
        rw [this, Bool.and_false]
  obtain ⟨extra', hloop, -⟩ :=
    find_path_loop_no_match startLinks [start, finish] store0 []
      (by simp) hconn
  rw [List.append_nil] at hloop
  simp [find_path, hs, hfr, hloop]

/-- Witness for C3 at a concrete input: from `C` no first-hop link reaches
`F`, and the result is the empty sequence. -/
theorem find_path_not_found_empty_witness :
    (find_path wiki_small [] "C" "F").1 = PyResult.path [] :=
  find_path_not_found_empty wiki_small [] "C" "F" ["Z"] rfl
    ⟨(true, ["A"]), rfl⟩ (by decide)

/-- C1 counterexample: with valid start `A` and finish `F`, the first link of
`startLinks` whose (freshly fetched, cache-missed) link set contains `F` is
the empty title, yet `find_path` returns `["A", "B", "F"]` rather than
`["A", "", "F"]`: the empty-titled candidate fails validation (every
character of an empty title is vacuously a separator) and is skipped even
though its link set contains the finish. -/
theorem find_path_first_link_skipped_cex :
    validate_page wiki_small "A" = .ok (true, ["", "B", "C"]) ∧
    validate_page wiki_small "F" = .ok (true, ["A"]) ∧
    get_links wiki_small "A" = ["", "B", "C"] ∧
    ([] : List WikiPage).find? (fun p => p.title == "") = none ∧
    "F" ∈ get_links wiki_small "" ∧
    (find_path wiki_small [] "A" "F").1 = PyResult.path ["A", "B", "F"] ∧
    PyResult.path ["A", "B", "F"] ≠ PyResult.path ["A", "", "F"] := by
  refine ⟨rfl, rfl, rfl, rfl, by decide, by decide, by decide⟩

/-- C1 amended: for valid `start` and `finish`, `find_path` returns
`[start, cand, finish]` where `cand` is the first link of `startLinks`, in
provider order, that either hits the store with `finish` among its cached
links, or misses the store, passes validation, and has `finish` among its
freshly fetched links; iteration stops at that first such candidate.  (A
cache-missed candidate whose fetched links contain `finish` but which fails
validation — possible only for an empty-titled link — is skipped, not
chosen.) -/
theorem find_path_first_valid_match (c : Corpus) (store0 : List WikiPage)
    (start finish : String) (startLinks pre post : List String) (cand : String)
    (hs : validate_page c start = .ok (true, startLinks))
    (hf : ∃ r, validate_page c finish = .ok r)
    (hsplit : startLinks = pre ++ cand :: post)
    (hpre : ∀ l ∈ pre, link_connects c store0 finish l = false)
    (hcand : link_connects c store0 finish cand = true) :
    (find_path c store0 start finish).1 = PyResult.path [start, cand, finish] := by
  obtain ⟨r, hfr⟩ := hf
  obtain ⟨store', hloop, -⟩ :=
    find_path_loop_first_match pre [start, finish] store0 [] cand post
      (by simp) hpre hcand
  rw [List.append_nil] at hloop
  have hins : list_insert [start, finish] 1 cand = [start, cand, finish] := rfl
  rw [hins] at hloop
  simp [find_path, hs, hfr, hsplit, hloop]

/-- Witness for the amended C1 at a concrete input: the empty-titled first
candidate does not connect (it fails validation), `B` is the first connecting
candidate, and the result is `["A", "B", "F"]`. -/
theorem find_path_first_valid_match_witness :
    (find_path wiki_small [] "A" "F").1 = PyResult.path ["A", "B", "F"] :=
  find_path_first_valid_match wiki_small [] "A" "F" ["", "B", "C"] [""] ["C"]
    "B" rfl ⟨(true, ["A"]), rfl⟩ rfl (by decide) (by decide)

/-- C7: candidates that fail validation during expansion are skipped and the
iteration continues — the search is not aborted, and a later valid candidate
whose fetched link set contains `finish` still yields the found path. -/
theorem find_path_skips_invalid_candidates (c : Corpus)
    (store0 : List WikiPage) (start finish : String)
    (startLinks pre post candLinks : List String) (cand : String)
    (hs : validate_page c start = .ok (true, startLinks))
    (hf : ∃ r, validate_page c finish = .ok r)
    (hsplit : startLinks = pre ++ cand :: post)
    (hpre : ∀ l ∈ pre, store0.find? (fun p => p.title == l) = none ∧
      (∃ e, validate_page c l = .error e))
    (hcandmiss : store0.find? (fun p => p.title == cand) = none)
    (hcand : validate_page c cand = .ok (true, candLinks))
    (hmem : finish ∈ candLinks) :
    (find_path c store0 start finish).1 = PyResult.path [start, cand, finish] := by
  obtain ⟨r, hfr⟩ := hf
  have hpre' : ∀ l ∈ pre, link_connects c store0 finish l = false := by
    intro l hl
    obtain ⟨h1, e, h2⟩ := hpre l hl
    rw [link_connects_miss h1, h2]
    rfl
  have hcand' : link_connects c store0 finish cand = true := by
    rw [link_connects_miss hcandmiss]
    obtain ⟨-, hpl, -, -⟩ := validate_page_ok_inv hcand
    have h1 : except_ok (validate_page c cand) = true := by rw [hcand]; rfl
    have h2 : (get_links c cand).contains finish = true := by
      rw [← hpl]; simpa using hmem
    rw [h1, h2, Bool.and_self]
  obtain ⟨store', hloop, -⟩ :=
    find_path_loop_first_match pre [start, finish] store0 [] cand post
      (by simp) hpre' hcand'
  rw [List.append_nil] at hloop
  have hins : list_insert [start, finish] 1 cand = [start, cand, finish] := rfl
  rw [hins] at hloop
  simp [find_path, hs, hfr, hsplit, hloop]

/-- Witness for C7 at a concrete input: from `D`, the empty-titled first
candidate fails validation and is skipped; the later candidate `B` still
yields the found path. -/
theorem find_path_skips_invalid_candidates_witness :
    (find_path wiki_small [] "D" "F").1 = PyResult.path ["D", "B", "F"] :=
  find_path_skips_invalid_candidates wiki_small [] "D" "F" ["", "B"] [""] []
    ["F"] "B" rfl ⟨(true, ["A"]), rfl⟩ rfl
    (by intro l hl
        simp only [List.mem_singleton] at hl
        subst hl
        exact ⟨rfl, ⟨some ""⟩, rfl⟩)
    rfl rfl (by decide)

/-- C8: every record in the store after `find_path` either was already there
or was inserted only after its title passed validation, so if the initial
store holds only substantive records, the final store does too: every record
has a non-empty links list and a title not consisting solely of separator
characters. -/
theorem find_path_store_records_valid (c : Corpus) (store0 : List WikiPage)
    (start finish : String)
    (h0 : ∀ q ∈ store0, record_valid q = true) :
    ∀ q ∈ (find_path c store0 start finish).2, record_valid q = true := by
  intro q hq
  cases hvs : validate_page c start with
  | error e =>
      simp only [find_path, hvs] at hq
      exact h0 q hq
  | ok bp =>
      obtain ⟨b, ls⟩ := bp
      cases hvf : validate_page c finish with
      | error e =>
          simp only [find_path, hvs, hvf] at hq
          exact h0 q hq
      | ok r =>
          obtain ⟨extra, hst, hclean⟩ :=
            find_path_loop_store_extends c finish ls [start, finish] store0
          simp only [find_path, hvs, hvf] at hq
          rw [hst] at hq
          rcases List.mem_append.mp hq with hq | hq
          · exact h0 q hq
          · obtain ⟨hlinks, hsep, hnil⟩ := inserted_ok_inv (hclean q hq)
            cases hqq : q.links with
            | nil => exact absurd hqq hnil
            | cons a l =>
                unfold record_valid
                rw [hqq, hsep]
                rfl

/-- Witness for C8 at a concrete input: the single record the search of
`wiki_small` inserts is substantive. -/
theorem find_path_store_records_valid_witness :
    record_valid ⟨"B", ["F"], []⟩ = true :=
  find_path_store_records_valid wiki_small [] "A" "F" (by simp)
    ⟨"B", ["F"], []⟩ (by decide)

/-- C9: if `find_path` found a path, re-invoking it with the same arguments
on the store it produced returns the same path and leaves the store exactly
as it was — in particular no new record is inserted for the chosen
intermediate title, whose record the store already holds (the cache-hit
branch performs no insert). -/
theorem find_path_idempotent_rerun (c : Corpus) (store0 store1 : List WikiPage)
    (start finish cand : String)
    (h1 : find_path c store0 start finish =
      (PyResult.path [start, cand, finish], store1)) :
    find_path c store1 start finish =
      (PyResult.path [start, cand, finish], store1) ∧
    ∃ q ∈ store1, q.title = cand := by
  cases hvs : validate_page c start with
  | error e => simp [find_path, hvs] at h1
  | ok bp =>
      obtain ⟨b, ls⟩ := bp
      cases hvf : validate_page c finish with
      | error e => simp [find_path, hvs, hvf] at h1
      | ok r =>
          rcases hloop : find_path_loop c finish ls [start, finish] store0
            with ⟨p1, f1, s1⟩
          simp only [find_path, hvs, hvf, hloop] at h1
          cases f1 with
          | false =>
              simp only [Bool.false_eq_true, if_false, Prod.mk.injEq] at h1
              obtain ⟨h1a, -⟩ := h1
              exact absurd h1a (by simp)
          | true =>
              simp only [if_true, Prod.mk.injEq] at h1
              obtain ⟨h1a, h1b⟩ := h1
              injection h1a with hp1
              subst h1b
              subst hp1
              have hidem := find_path_loop_idem hloop
              have hrec := find_path_loop_found_record hloop
              constructor
              · simp [find_path, hvs, hvf, hidem]
              · obtain ⟨l, hpl, q, hqmem, hqt⟩ := hrec
                have hl : l = cand := by
                  have h2 : ([start, cand, finish] : List String) =
                      [start, l, finish] := by
                    have h3 : list_insert [start, finish] 1 l =
                        [start, l, finish] := rfl
                    rw [← h3]
                    exact hpl
                  injection h2 with ha hb
                  injection hb with hc hd
                  exact hc.symm
                subst hl
                exact ⟨q, hqmem, hqt⟩

/-- Witness for C9 at a concrete input: re-running the search of
`wiki_small` on the store produced by the first run returns the same path
and the same store. -/
theorem find_path_idempotent_rerun_witness :
    find_path wiki_small wiki_small_store1 "A" "F" =
      (PyResult.path ["A", "B", "F"], wiki_small_store1) :=
  (find_path_idempotent_rerun wiki_small [] wiki_small_store1 "A" "F" "B"
    (by decide)).1
